import Mathlib

/-!
Verification of the crossterm input subsystem (crossterm_input/src/input).

The repository's visible source (src/crossterm_input/src/input/mod.rs) declares
the public data model (`InputEvent`, `KeyEvent`, `MouseEvent`, `MouseButton`)
and the `ITerminalInput` trait.  The platform decoder, the readers and the
mouse-mode controller live in modules (`unix_input.rs`, `input.rs`) that are
not part of the visible source, so those operations are modelled from the
specification (each such definition says so in its doc comment).

Machine integers are embedded as `Nat`; `u16` and `u8` fields are embedded as
`Fin 65536` / `Fin 256`, matching the exact value range of the Rust types.
-/

/-- `u16` of the source: exactly the values 0..=65535. -/
abbrev U16 := Fin 65536

/-- `u8` of the source: exactly the values 0..=255. -/
abbrev U8 := Fin 256

/-- Truncate a `Nat` to the `u16` range. -/
def toU16 (n : Nat) : U16 := ⟨n % 65536, Nat.mod_lt _ (by norm_num)⟩

/-- Truncate a `Nat` to the `u8` range. -/
def toU8 (n : Nat) : U8 := ⟨n % 256, Nat.mod_lt _ (by norm_num)⟩

/-- `KeyEvent` from src/crossterm_input/src/input/mod.rs lines 96-124:
the key or key-combination events, one constructor per Rust variant, in
source order. -/
inductive KeyEvent where
  | Backspace
  | Left
  | Right
  | Up
  | Down
  | Home
  | End
  | PageUp
  | PageDown
  | BackTab
  | Delete
  | Insert
  | F (n : U8)
  | Char (c : Char)
  | Alt (c : Char)
  | Ctrl (c : Char)
  | Null
  | Esc
  | CtrlUp
  | CtrlDown
  | CtrlRight
  | CtrlLeft
  | ShiftUp
  | ShiftDown
  | ShiftRight
  | ShiftLeft
  deriving DecidableEq, Repr

/-- `MouseButton` from src/crossterm_input/src/input/mod.rs lines 81-93. -/
inductive MouseButton where
  | Left
  | Right
  | Middle
  | WheelUp
  | WheelDown
  deriving DecidableEq, Repr

/-- `MouseEvent` from src/crossterm_input/src/input/mod.rs lines 68-78:
coordinates are `u16` in the source, embedded as `U16`. -/
inductive MouseEvent where
  | Press (button : MouseButton) (x : U16) (y : U16)
  | Release (x : U16) (y : U16)
  | Hold (x : U16) (y : U16)
  | Unknown
  deriving DecidableEq, Repr

/-- `InputEvent` from src/crossterm_input/src/input/mod.rs lines 55-65:
`Unsupported` carries the raw bytes (`Vec<u8>`) consumed for the
unrecognized sequence. -/
inductive InputEvent where
  | Keyboard (k : KeyEvent)
  | Mouse (m : MouseEvent)
  | Unsupported (bytes : List Nat)
  | Unknown
  deriving DecidableEq, Repr

/-- One unit pulled from the backend read primitive: either a raw byte or an
I/O failure of the device (spec section 6: `read_unit() -> raw byte or
failure`). -/
inductive ReadResult where
  | ok (b : Nat)
  | ioErr
  deriving DecidableEq, Repr

/-- The raw unit stream offered by the backend. -/
abbrev ByteStream := List ReadResult

/-- Result of one decoding step: the event, the bytes consumed for it
(verbatim, in order), and the remaining stream; `Except.error` exactly when
an I/O failure was pulled. -/
abbrev PR := Except Unit (InputEvent × List Nat × ByteStream)

/-- A CSI parameter byte: an ASCII digit or `;` (spec 4.1: "continue
consuming parameter bytes (digits, `;`)"). -/
def isParamByte (b : Nat) : Bool := (48 ≤ b && b ≤ 57) || b == 59

/-- Modelled from the spec (the CSI parameter scanner of the missing
`unix_input.rs` decoder): consume parameter bytes, then return them together
with the final byte (`none` when the stream is exhausted first) and the rest
of the stream.  An I/O failure while scanning propagates as an error. -/
def readParams : ByteStream → Except Unit (List Nat × Option Nat × ByteStream)
  | [] => .ok ([], none, [])
  | .ioErr :: _ => .error ()
  | .ok b :: rest =>
    if isParamByte b then
      match readParams rest with
      | .error () => .error ()
      | .ok (ps, fin, r) => .ok (b :: ps, fin, r)
    else .ok ([], some b, rest)

/-- Split a list of parameter bytes at each `;` (byte 59). -/
def splitParams : List Nat → List (List Nat)
  | [] => [[]]
  | b :: rest =>
    if b == 59 then [] :: splitParams rest
    else
      match splitParams rest with
      | [] => [[b]]
      | g :: gs => (b :: g) :: gs

/-- Decimal value of a run of ASCII digit bytes. -/
def digitsToNat (ds : List Nat) : Nat := ds.foldl (fun a d => a * 10 + (d - 48)) 0

/-- Numeric parameters of a CSI payload. -/
def paramNums (ps : List Nat) : List Nat := (splitParams ps).map digitsToNat

/-- Plain arrow-key finals (spec 4.1: final `A`→Up, `D`→Left, ...). -/
def arrowKey (fin : Nat) : Option KeyEvent :=
  if fin == 65 then some .Up
  else if fin == 66 then some .Down
  else if fin == 67 then some .Right
  else if fin == 68 then some .Left
  else none

/-- Ctrl-modified arrow finals (spec 4.1: parameter containing modifier `5`
→ Ctrl variant). -/
def ctrlArrow (fin : Nat) : Option KeyEvent :=
  if fin == 65 then some .CtrlUp
  else if fin == 66 then some .CtrlDown
  else if fin == 67 then some .CtrlRight
  else if fin == 68 then some .CtrlLeft
  else none

/-- Shift-modified arrow finals (spec 4.1: modifier `2` → Shift variant). -/
def shiftArrow (fin : Nat) : Option KeyEvent :=
  if fin == 65 then some .ShiftUp
  else if fin == 66 then some .ShiftDown
  else if fin == 67 then some .ShiftRight
  else if fin == 68 then some .ShiftLeft
  else none

/-- The `~`-terminated navigation/function-key table (spec 4.1: `~` with
parameter `3`→Delete, etc.). -/
def tildeKey (n : Nat) : Option KeyEvent :=
  if n == 1 then some .Home
  else if n == 2 then some .Insert
  else if n == 3 then some .Delete
  else if n == 4 then some .End
  else if n == 5 then some .PageUp
  else if n == 6 then some .PageDown
  else if 11 ≤ n && n ≤ 15 then some (.F (toU8 (n - 10)))
  else if 17 ≤ n && n ≤ 21 then some (.F (toU8 (n - 11)))
  else if 23 ≤ n && n ≤ 24 then some (.F (toU8 (n - 12)))
  else none

/-- Modelled from the spec (the fixed CSI lookup table of the missing
decoder): map a (parameter bytes, final byte) pair to a key; `none` means
the terminator is unrecognized. -/
def csiKey (ps : List Nat) (fin : Nat) : Option KeyEvent :=
  if ps.isEmpty then
    if fin == 72 then some .Home
    else if fin == 70 then some .End
    else if fin == 90 then some .BackTab
    else arrowKey fin
  else if fin == 126 then
    match paramNums ps with
    | n :: _ => tildeKey n
    | [] => none
  else
    match paramNums ps with
    | [_, 5] => ctrlArrow fin
    | [_, 2] => shiftArrow fin
    | _ => none

/-- Select the button of a mouse report from the low bits of the button
value (spec 4.1: "the button byte's low bits select `MouseButton`"; bit
0x40 marks the wheel). -/
def x10Button (b : Nat) : Option MouseButton :=
  if b / 64 % 2 == 1 then
    if b % 2 == 0 then some .WheelUp else some .WheelDown
  else if b % 4 == 0 then some .Left
  else if b % 4 == 1 then some .Middle
  else if b % 4 == 2 then some .Right
  else none

/-- Modelled from the spec (legacy X10 interpretation of the missing
decoder): `b`, `x`, `y` are the three data bytes already de-offset by 32.
Low bits 3 mean a release (no button identity); bit 0x20 marks a drag
(`Hold`); otherwise a fresh press of the selected button. -/
def x10Mouse (b x y : Nat) : MouseEvent :=
  if b % 4 == 3 then .Release (toU16 x) (toU16 y)
  else if b / 32 % 2 == 1 then .Hold (toU16 x) (toU16 y)
  else
    match x10Button b with
    | some btn => .Press btn (toU16 x) (toU16 y)
    | none => .Unknown

/-- Modelled from the spec (SGR interpretation of the missing decoder):
`release` is true when the final byte was `m`; bit 0x20 marks a drag. -/
def sgrMouse (b x y : Nat) (release : Bool) : MouseEvent :=
  if release then .Release (toU16 x) (toU16 y)
  else if b / 32 % 2 == 1 then .Hold (toU16 x) (toU16 y)
  else
    match x10Button b with
    | some btn => .Press btn (toU16 x) (toU16 y)
    | none => .Unknown

/-- Modelled from the spec (legacy X10 branch of the missing decoder, after
`ESC [ M`): read exactly three data bytes, de-offset them by 32 and
interpret; a short stream yields `Unsupported` with every byte consumed, an
I/O failure propagates. -/
def parseX10 : ByteStream → PR
  | [] => .ok (.Unsupported [27, 91, 77], [27, 91, 77], [])
  | .ioErr :: _ => .error ()
  | [.ok cb] => .ok (.Unsupported [27, 91, 77, cb], [27, 91, 77, cb], [])
  | .ok _ :: .ioErr :: _ => .error ()
  | [.ok cb, .ok cx] => .ok (.Unsupported [27, 91, 77, cb, cx], [27, 91, 77, cb, cx], [])
  | .ok _ :: .ok _ :: .ioErr :: _ => .error ()
  | .ok cb :: .ok cx :: .ok cy :: rest =>
    .ok (.Mouse (x10Mouse (cb - 32) (cx - 32) (cy - 32)), [27, 91, 77, cb, cx, cy], rest)

/-- Modelled from the spec (SGR branch of the missing decoder, after
`ESC [ <`): parse `b;x;y` then final `M`/`m`; anything else yields
`Unsupported` with every byte consumed. -/
def parseSGR (s : ByteStream) : PR :=
  match readParams s with
  | .error () => .error ()
  | .ok (ps, none, _) => .ok (.Unsupported (27 :: 91 :: 60 :: ps), 27 :: 91 :: 60 :: ps, [])
  | .ok (ps, some f, r) =>
    let con := 27 :: 91 :: 60 :: ps ++ [f]
    if f == 77 || f == 109 then
      match paramNums ps with
      | [b, x, y] => .ok (.Mouse (sgrMouse b x y (f == 109)), con, r)
      | _ => .ok (.Unsupported con, con, r)
    else .ok (.Unsupported con, con, r)

/-- Modelled from the spec (SS3 branch of the missing decoder, after
`ESC O`): one more unit selects an arrow (`A`..`D`) or `F1`..`F4`
(`P`..`S`); anything else is `Unsupported`. -/
def parseSS3 : ByteStream → PR
  | [] => .ok (.Unsupported [27, 79], [27, 79], [])
  | .ioErr :: _ => .error ()
  | .ok b :: rest =>
    match arrowKey b with
    | some k => .ok (.Keyboard k, [27, 79, b], rest)
    | none =>
      if 80 ≤ b && b ≤ 83 then .ok (.Keyboard (.F (toU8 (b - 79))), [27, 79, b], rest)
      else .ok (.Unsupported [27, 79, b], [27, 79, b], rest)

/-- Modelled from the spec (CSI branch of the missing decoder, after
`ESC [`): `M` opens a legacy mouse report, `<` an SGR one; otherwise
parameter bytes are consumed until a final byte, which the fixed table maps
to a key, unrecognized terminators yielding `Unsupported` with every byte
consumed verbatim. -/
def parseCSI : ByteStream → PR
  | [] => .ok (.Unsupported [27, 91], [27, 91], [])
  | .ioErr :: _ => .error ()
  | .ok b :: rest =>
    if b == 77 then parseX10 rest
    else if b == 60 then parseSGR rest
    else
      match readParams (.ok b :: rest) with
      | .error () => .error ()
      | .ok (ps, none, _) => .ok (.Unsupported (27 :: 91 :: ps), 27 :: 91 :: ps, [])
      | .ok (ps, some f, r) =>
        match csiKey ps f with
        | some k => .ok (.Keyboard k, 27 :: 91 :: ps ++ [f], r)
        | none => .ok (.Unsupported (27 :: 91 :: ps ++ [f]), 27 :: 91 :: ps ++ [f], r)

/-- Modelled from the spec (escape lookahead of the missing decoder): after
byte 0x1B, an exhausted stream means a lone `Esc`; `[` opens CSI, `O` opens
SS3, any other unit is an Alt-combination. -/
def parseEsc : ByteStream → PR
  | [] => .ok (.Keyboard .Esc, [27], [])
  | .ioErr :: _ => .error ()
  | .ok b :: rest =>
    if b == 91 then parseCSI rest
    else if b == 79 then parseSS3 rest
    else .ok (.Keyboard (.Alt (Char.ofNat b)), [27, b], rest)

/-- Number of continuation units declared by a UTF-8 leading byte; `none`
when the byte cannot lead a multi-unit encoding. -/
def utf8Len (b : Nat) : Option Nat :=
  if 192 ≤ b && b ≤ 223 then some 1
  else if 224 ≤ b && b ≤ 239 then some 2
  else if 240 ≤ b && b ≤ 247 then some 3
  else none

/-- A UTF-8 continuation byte. -/
def isCont (b : Nat) : Bool := 128 ≤ b && b ≤ 191

/-- Modelled from the spec ("reading the declared number of continuation
units"): read up to `n` continuation bytes, stopping early at a
non-continuation unit (left unconsumed) or the end of the stream; an I/O
failure propagates. -/
def readCont : Nat → ByteStream → Except Unit (List Nat × ByteStream)
  | 0, s => .ok ([], s)
  | _ + 1, [] => .ok ([], [])
  | _ + 1, .ioErr :: _ => .error ()
  | n + 1, .ok b :: rest =>
    if isCont b then
      match readCont n rest with
      | .error () => .error ()
      | .ok (bs, r) => .ok (b :: bs, r)
    else .ok ([], .ok b :: rest)

/-- Code point assembled from a UTF-8 leading byte and its continuation
bytes; `none` when the value is not a Unicode scalar. -/
def utf8Decode (b : Nat) (conts : List Nat) : Option Char :=
  let lead := if conts.length == 1 then b - 192
              else if conts.length == 2 then b - 224
              else b - 240
  let cp := conts.foldl (fun a c => a * 64 + (c - 128)) lead
  if cp < 55296 || (57344 ≤ cp && cp ≤ 1114111) then some (Char.ofNat cp) else none

/-- Modelled from the spec (section 4.1 of the missing `unix_input.rs`
decoder): decode one `InputEvent` from the front of the unit stream.
Returns `none` on an exhausted stream, `error` exactly when an I/O failure
is pulled, and otherwise one event together with the bytes consumed for it
(verbatim, in order) and the remaining stream.  Byte dispatch:
0x1B opens the escape lookahead; 0x0A/0x0D map to `Char('\n')`, 0x09 to
`Char('\t')`, 0x08 and 0x7F to `Backspace`, 0 to `Null`; the remaining
control values 1..=26 map to `Ctrl(letter)`; printable ASCII maps to
`Char`; bytes ≥ 0x80 open the multi-unit assembly, invalid encodings
yielding `Unknown`; anything else is `Unknown`. -/
def parseEvent : ByteStream → Except Unit (Option (InputEvent × List Nat × ByteStream))
  | [] => .ok none
  | .ioErr :: _ => .error ()
  | .ok b :: rest =>
    if b == 27 then (parseEsc rest).map some
    else if b == 10 || b == 13 then .ok (some (.Keyboard (.Char '\n'), [b], rest))
    else if b == 9 then .ok (some (.Keyboard (.Char '\t'), [b], rest))
    else if b == 8 || b == 127 then .ok (some (.Keyboard .Backspace, [b], rest))
    else if b == 0 then .ok (some (.Keyboard .Null, [b], rest))
    else if b ≤ 26 then .ok (some (.Keyboard (.Ctrl (Char.ofNat (96 + b))), [b], rest))
    else if 32 ≤ b && b ≤ 126 then .ok (some (.Keyboard (.Char (Char.ofNat b)), [b], rest))
    else if 128 ≤ b then
      match utf8Len b with
      | none => .ok (some (.Unknown, [b], rest))
      | some n =>
        match readCont n rest with
        | .error () => .error ()
        | .ok (cs, r) =>
          if cs.length == n then
            match utf8Decode b cs with
            | some c => .ok (some (.Keyboard (.Char c), b :: cs, r))
            | none => .ok (some (.Unknown, b :: cs, r))
          else .ok (some (.Unknown, b :: cs, r))
    else .ok (some (.Unknown, [b], rest))

/-- Run the decoder repeatedly, pairing each event with the bytes consumed
for it; `fuel` bounds the number of steps. -/
def decodeChunksLoop : Nat → ByteStream → List (InputEvent × List Nat)
  | 0, _ => []
  | fuel + 1, s =>
    match parseEvent s with
    | .error () => []
    | .ok none => []
    | .ok (some (ev, con, rest)) => (ev, con) :: decodeChunksLoop fuel rest

/-- Decode a whole byte sequence into events paired with the bytes each
event consumed. -/
def decodeChunks (bs : List Nat) : List (InputEvent × List Nat) :=
  decodeChunksLoop bs.length (bs.map .ok)

/-- Decode a whole byte sequence into its event sequence. -/
def decode (bs : List Nat) : List InputEvent := (decodeChunks bs).map Prod.fst

/-! ### Structural lemmas about the decoder -/

theorem isParamByte_le (b : Nat) (h : isParamByte b = true) : 48 ≤ b ∧ b ≤ 59 := by
  simp [isParamByte] at h
  rcases h with ⟨h1, h2⟩ | h3
  · exact ⟨h1, by omega⟩
  · omega

theorem readParams_total (s : ByteStream) (hs : .ioErr ∉ s) :
    ∃ ps fin r, readParams s = .ok (ps, fin, r) ∧
      s = ps.map .ok ++ (match fin with | some f => .ok f :: r | none => r) ∧
      (fin = none → r = []) := by
  induction s with
  | nil => exact ⟨[], none, [], rfl, rfl, fun _ => rfl⟩
  | cons u rest ih =>
    cases u with
    | ioErr => exact absurd (List.mem_cons_self _ _) hs
    | ok b =>
      have hrest : .ioErr ∉ rest := fun h => hs (List.mem_cons_of_mem _ h)
      by_cases hb : isParamByte b
      · obtain ⟨ps, fin, r, h1, h2, h3⟩ := ih hrest
        refine ⟨b :: ps, fin, r, ?_, ?_, h3⟩
        · simp [readParams, hb, h1]
        · simp [h2]
      · exact ⟨[], some b, rest, by simp [readParams, hb], by simp, by simp⟩

theorem readParams_app (ps : List Nat) (f : Nat) (rest : ByteStream)
    (hps : ∀ b ∈ ps, isParamByte b = true) (hf : isParamByte f = false) :
    readParams (ps.map .ok ++ .ok f :: rest) = .ok (ps, some f, rest) := by
  induction ps with
  | nil => simp [readParams, hf]
  | cons p ps ih =>
    have hp := hps p (List.mem_cons_self _ _)
    have ih2 := ih fun b hb => hps b (List.mem_cons_of_mem _ hb)
    simp [readParams, hp, ih2]

theorem readCont_total (n : Nat) (s : ByteStream) (hs : .ioErr ∉ s) :
    ∃ cs r, readCont n s = .ok (cs, r) ∧ s = cs.map .ok ++ r := by
  induction n generalizing s with
  | zero => exact ⟨[], s, rfl, by simp⟩
  | succ n ih =>
    cases s with
    | nil => exact ⟨[], [], rfl, by simp⟩
    | cons u rest =>
      cases u with
      | ioErr => exact absurd (List.mem_cons_self _ _) hs
      | ok b =>
        have hrest : .ioErr ∉ rest := fun h => hs (List.mem_cons_of_mem _ h)
        by_cases hb : isCont b
        · obtain ⟨cs, r, h1, h2⟩ := ih rest hrest
          refine ⟨b :: cs, r, ?_, ?_⟩
          · simp [readCont, hb, h1]
          · simp [h2]
        · exact ⟨[], .ok b :: rest, by simp [readCont, hb], by simp⟩

theorem parseX10_total (s : ByteStream) (hs : .ioErr ∉ s) :
    ∃ ev new r, parseX10 s = .ok (ev, 27 :: 91 :: 77 :: new, r) ∧ s = new.map .ok ++ r := by
  cases s with
  | nil => exact ⟨.Unsupported [27, 91, 77], [], [], rfl, rfl⟩
  | cons u1 s1 =>
    cases u1 with
    | ioErr => exact absurd (List.mem_cons_self _ _) hs
    | ok cb =>
      cases s1 with
      | nil => exact ⟨.Unsupported [27, 91, 77, cb], [cb], [], rfl, rfl⟩
      | cons u2 s2 =>
        cases u2 with
        | ioErr => exact absurd (List.mem_cons_of_mem _ (List.mem_cons_self _ _)) hs
        | ok cx =>
          cases s2 with
          | nil => exact ⟨.Unsupported [27, 91, 77, cb, cx], [cb, cx], [], rfl, rfl⟩
          | cons u3 s3 =>
            cases u3 with
            | ioErr =>
              exact absurd
                (List.mem_cons_of_mem _ (List.mem_cons_of_mem _ (List.mem_cons_self _ _))) hs
            | ok cy =>
              exact ⟨.Mouse (x10Mouse (cb - 32) (cx - 32) (cy - 32)), [cb, cx, cy], s3,
                rfl, rfl⟩

theorem parseSS3_total (s : ByteStream) (hs : .ioErr ∉ s) :
    ∃ ev new r, parseSS3 s = .ok (ev, 27 :: 79 :: new, r) ∧ s = new.map .ok ++ r := by
  cases s with
  | nil => exact ⟨.Unsupported [27, 79], [], [], rfl, rfl⟩
  | cons u rest =>
    cases u with
    | ioErr => exact absurd (List.mem_cons_self _ _) hs
    | ok b =>
      have key : ∃ ev, parseSS3 (.ok b :: rest) = .ok (ev, [27, 79, b], rest) := by
        simp only [parseSS3]
        split
        · exact ⟨_, rfl⟩
        · split
          · exact ⟨_, rfl⟩
          · exact ⟨_, rfl⟩
      obtain ⟨ev, hev⟩ := key
      exact ⟨ev, [b], rest, hev, by simp⟩

theorem parseSGR_total (s : ByteStream) (hs : .ioErr ∉ s) :
    ∃ ev new r, parseSGR s = .ok (ev, 27 :: 91 :: 60 :: new, r) ∧ s = new.map .ok ++ r := by
  obtain ⟨ps, fin, r, h1, h2, h3⟩ := readParams_total s hs
  cases fin with
  | none =>
    have hr := h3 rfl
    subst hr
    exact ⟨.Unsupported (27 :: 91 :: 60 :: ps), ps, [], by simp [parseSGR, h1],
      by simpa using h2⟩
  | some f =>
    have key : ∃ ev, parseSGR s = .ok (ev, 27 :: 91 :: 60 :: (ps ++ [f]), r) := by
      simp only [parseSGR, h1]
      split
      · split
        · exact ⟨_, rfl⟩
        · exact ⟨_, rfl⟩
      · exact ⟨_, rfl⟩
    obtain ⟨ev, hev⟩ := key
    exact ⟨ev, ps ++ [f], r, hev, by simpa using h2⟩

theorem parseCSI_total (s : ByteStream) (hs : .ioErr ∉ s) :
    ∃ ev new r, parseCSI s = .ok (ev, 27 :: 91 :: new, r) ∧ s = new.map .ok ++ r := by
  cases s with
  | nil => exact ⟨.Unsupported [27, 91], [], [], rfl, rfl⟩
  | cons u rest =>
    cases u with
    | ioErr => exact absurd (List.mem_cons_self _ _) hs
    | ok b =>
      have hrest : .ioErr ∉ rest := fun h => hs (List.mem_cons_of_mem _ h)
      by_cases hb77 : b = 77
      · subst hb77
        obtain ⟨ev, new, r, h1, h2⟩ := parseX10_total rest hrest
        exact ⟨ev, 77 :: new, r, by simp [parseCSI, h1], by simp [h2]⟩
      · by_cases hb60 : b = 60
        · subst hb60
          obtain ⟨ev, new, r, h1, h2⟩ := parseSGR_total rest hrest
          exact ⟨ev, 60 :: new, r, by simp [parseCSI, h1], by simp [h2]⟩
        · have c77 : (b == 77) = false := by simp [hb77]
          have c60 : (b == 60) = false := by simp [hb60]
          obtain ⟨ps, fin, r, h1, h2, h3⟩ := readParams_total (.ok b :: rest) hs
          cases fin with
          | none =>
            have hr := h3 rfl
            subst hr
            exact ⟨.Unsupported (27 :: 91 :: ps), ps, [],
              by simp [parseCSI, c77, c60, h1], by simpa using h2⟩
          | some f =>
            have key : ∃ ev, parseCSI (.ok b :: rest) = .ok (ev, 27 :: 91 :: (ps ++ [f]), r) := by
              simp only [parseCSI, c77, c60, h1, Bool.false_eq_true, if_false]
              split
              · exact ⟨_, rfl⟩
              · exact ⟨_, rfl⟩
            obtain ⟨ev, hev⟩ := key
            exact ⟨ev, ps ++ [f], r, hev, by simpa using h2⟩

theorem parseEsc_total (s : ByteStream) (hs : .ioErr ∉ s) :
    ∃ ev new r, parseEsc s = .ok (ev, 27 :: new, r) ∧ s = new.map .ok ++ r := by
  cases s with
  | nil => exact ⟨.Keyboard .Esc, [], [], rfl, rfl⟩
  | cons u rest =>
    cases u with
    | ioErr => exact absurd (List.mem_cons_self _ _) hs
    | ok b =>
      have hrest : .ioErr ∉ rest := fun h => hs (List.mem_cons_of_mem _ h)
      by_cases hb91 : b = 91
      · subst hb91
        obtain ⟨ev, new, r, h1, h2⟩ := parseCSI_total rest hrest
        exact ⟨ev, 91 :: new, r, by simp [parseEsc, h1], by simp [h2]⟩
      · by_cases hb79 : b = 79
        · subst hb79
          obtain ⟨ev, new, r, h1, h2⟩ := parseSS3_total rest hrest
          exact ⟨ev, 79 :: new, r, by simp [parseEsc, h1], by simp [h2]⟩
        · have c91 : (b == 91) = false := by simp [hb91]
          have c79 : (b == 79) = false := by simp [hb79]
          exact ⟨.Keyboard (.Alt (Char.ofNat b)), [b], rest,
            by simp [parseEsc, c91, c79], by simp⟩

theorem parseEvent_total (s : ByteStream) (hs : .ioErr ∉ s) :
    parseEvent s = .ok none ∧ s = [] ∨
      ∃ ev con r, parseEvent s = .ok (some (ev, con, r)) ∧ con ≠ [] ∧ s = con.map .ok ++ r := by
  cases s with
  | nil => exact .inl ⟨rfl, rfl⟩
  | cons u rest =>
    cases u with
    | ioErr => exact absurd (List.mem_cons_self _ _) hs
    | ok b =>
      right
      have hrest : .ioErr ∉ rest := fun h => hs (List.mem_cons_of_mem _ h)
      by_cases h1 : (b == 27) = true
      · have hb : b = 27 := by simpa using h1
        subst hb
        obtain ⟨ev, new, r, hp1, hp2⟩ := parseEsc_total rest hrest
        refine ⟨ev, 27 :: new, r, ?_, List.cons_ne_nil _ _, by rw [hp2]; rfl⟩
        show (parseEsc rest).map some = _
        rw [hp1]
        rfl
      · by_cases h2 : (b == 10 || b == 13) = true
        · exact ⟨.Keyboard (.Char (Char.ofNat 10)), [b], rest,
            by simp [parseEvent, h1, h2], by simp, by simp⟩
        · by_cases h3 : (b == 9) = true
          · exact ⟨.Keyboard (.Char (Char.ofNat 9)), [b], rest,
              by simp [parseEvent, h1, h2, h3], by simp, by simp⟩
          · by_cases h4 : (b == 8 || b == 127) = true
            · exact ⟨.Keyboard .Backspace, [b], rest,
                by simp [parseEvent, h1, h2, h3, h4], by simp, by simp⟩
            · by_cases h5 : (b == 0) = true
              · exact ⟨.Keyboard .Null, [b], rest,
                  by simp [parseEvent, h1, h2, h3, h4, h5], by simp, by simp⟩
              · by_cases h6 : b ≤ 26
                · exact ⟨.Keyboard (.Ctrl (Char.ofNat (96 + b))), [b], rest,
                    by simp [parseEvent, h1, h2, h3, h4, h5, h6], by simp, by simp⟩
                · by_cases h7 : (32 ≤ b && b ≤ 126) = true
                  · exact ⟨.Keyboard (.Char (Char.ofNat b)), [b], rest,
                      by simp [parseEvent, h1, h2, h3, h4, h5, h6, h7], by simp, by simp⟩
                  · by_cases h8 : 128 ≤ b
                    · rcases hu : utf8Len b with _ | n
                      · exact ⟨.Unknown, [b], rest,
                          by simp [parseEvent, h1, h2, h3, h4, h5, h6, h7, h8, hu],
                          by simp, by simp⟩
                      · obtain ⟨cs, r, hc1, hc2⟩ := readCont_total n rest hrest
                        by_cases hlen : (cs.length == n) = true
                        · rcases hd : utf8Decode b cs with _ | c
                          · exact ⟨.Unknown, b :: cs, r,
                              by simp [parseEvent, h1, h2, h3, h4, h5, h6, h7, h8, hu, hc1,
                                hlen, hd],
                              by simp, by simp [hc2]⟩
                          · exact ⟨.Keyboard (.Char c), b :: cs, r,
                              by simp [parseEvent, h1, h2, h3, h4, h5, h6, h7, h8, hu, hc1,
                                hlen, hd],
                              by simp, by simp [hc2]⟩
                        · exact ⟨.Unknown, b :: cs, r,
                            by simp [parseEvent, h1, h2, h3, h4, h5, h6, h7, h8, hu, hc1, hlen],
                            by simp, by simp [hc2]⟩
                    · exact ⟨.Unknown, [b], rest,
                        by simp [parseEvent, h1, h2, h3, h4, h5, h6, h7, h8], by simp, by simp⟩

theorem parseEvent_map_ok (bs : List Nat) (hbs : bs ≠ []) :
    ∃ ev con bs', parseEvent (bs.map .ok) = .ok (some (ev, con, bs'.map .ok)) ∧
      bs = con ++ bs' ∧ con ≠ [] := by
  have hio : ReadResult.ioErr ∉ bs.map ReadResult.ok := by simp
  rcases parseEvent_total _ hio with ⟨_, h2⟩ | ⟨ev, con, r, h1, h2, h3⟩
  · exact absurd (List.map_eq_nil_iff.mp h2) hbs
  · have hlen : con.length ≤ bs.length := by
      have := congrArg List.length h3
      simp at this
      omega
    have hsplit : (bs.take con.length).map ReadResult.ok ++ (bs.drop con.length).map ReadResult.ok
        = con.map ReadResult.ok ++ r := by
      rw [← List.map_append, List.take_append_drop]
      exact h3
    obtain ⟨hL, hR⟩ := List.append_inj hsplit (by simp [hlen])
    have hokinj : Function.Injective ReadResult.ok := fun a b h => ReadResult.ok.inj h
    have hcon : bs.take con.length = con := List.map_injective_iff.mpr hokinj hL
    refine ⟨ev, con, bs.drop con.length, ?_, ?_, h2⟩
    · rw [hR]
      exact h1
    · conv_lhs => rw [← List.take_append_drop con.length bs]
      rw [hcon]

theorem decodeChunksLoop_spec (fuel : Nat) :
    ∀ bs : List Nat, bs.length ≤ fuel →
      ((decodeChunksLoop fuel (bs.map .ok)).map Prod.snd).flatten = bs := by
  induction fuel with
  | zero =>
    intro bs h
    have : bs = [] := List.length_eq_zero.mp (Nat.le_zero.mp h)
    subst this
    rfl
  | succ fuel ih =>
    intro bs h
    by_cases hbs : bs = []
    · subst hbs
      rfl
    · obtain ⟨ev, con, bs', h1, h2, h3⟩ := parseEvent_map_ok bs hbs
      have hlen : bs'.length ≤ fuel := by
        have := congrArg List.length h2
        simp at this
        have hc : 1 ≤ con.length := List.length_pos.mpr h3
        omega
      have step : decodeChunksLoop (fuel + 1) (bs.map .ok)
          = (ev, con) :: decodeChunksLoop fuel (bs'.map .ok) := by
        simp [decodeChunksLoop, h1]
      rw [step]
      simp only [List.map_cons, List.flatten_cons]
      rw [ih bs' hlen]
      exact h2.symm

/-! ### Claim theorems -/

/-- C1: decoding is total — for every finite byte sequence the decoder
terminates and yields a finite sequence of `InputEvent`s; the bytes consumed
by the successive events reassemble the input exactly (no byte is silently
dropped), and a nonempty input always yields at least one event. -/
theorem decode_totality (bs : List Nat) :
    ((decodeChunks bs).map Prod.snd).flatten = bs ∧
      decode bs = (decodeChunks bs).map Prod.fst ∧
      (bs ≠ [] → decode bs ≠ []) := by
  refine ⟨decodeChunksLoop_spec bs.length bs le_rfl, rfl, ?_⟩
  intro hbs hdec
  have hchunks : decodeChunks bs = [] := by
    have := congrArg List.length hdec
    simpa [decode] using List.length_eq_zero.mp this
  have hj := decodeChunksLoop_spec bs.length bs le_rfl
  rw [show decodeChunksLoop bs.length (bs.map .ok) = decodeChunks bs from rfl, hchunks] at hj
  exact hbs hj.symm

/-- Witness for C1 at the concrete input `[65]`. -/
theorem decode_totality_witness :
    ((decodeChunks [65]).map Prod.snd).flatten = [65] ∧ decode [65] ≠ [] := by
  obtain ⟨h1, _, h3⟩ := decode_totality [65]
  exact ⟨h1, h3 (by decide)⟩

/-- C3: the decoder never raises an error for malformed input — on a stream
with no I/O failure it always returns a value, loudly classifying malformed
bytes as data — and it errors only when the underlying read primitive fails,
an I/O failure at the read position being propagated, not swallowed. -/
theorem decoder_error_iff_io (s : ByteStream) :
    (.ioErr ∉ s → ∃ v, parseEvent s = .ok v) ∧
      (parseEvent s = .error () → .ioErr ∈ s) ∧
      parseEvent (.ioErr :: s) = .error () := by
  have hok : .ioErr ∉ s → ∃ v, parseEvent s = .ok v := by
    intro hs
    rcases parseEvent_total s hs with ⟨h, _⟩ | ⟨ev, con, r, h, _, _⟩
    · exact ⟨none, h⟩
    · exact ⟨some (ev, con, r), h⟩
  refine ⟨hok, ?_, rfl⟩
  intro herr
  by_contra hmem
  obtain ⟨v, hv⟩ := hok hmem
  rw [hv] at herr
  exact Except.noConfusion herr

/-- Witness for C3: a malformed escape prefix decodes without error, and a
stream beginning with an I/O failure errors. -/
theorem decoder_error_iff_io_witness :
    (∃ v, parseEvent [.ok 27, .ok 91] = .ok v) ∧ parseEvent [.ioErr] = .error () := by
  obtain ⟨h1, _, _⟩ := decoder_error_iff_io [.ok 27, .ok 91]
  obtain ⟨_, _, h3⟩ := decoder_error_iff_io []
  exact ⟨h1 (by decide), h3⟩

/-- C4: on the escape byte 0x1B the decoder looks ahead — an exhausted
stream yields `Keyboard(Esc)`; a following printable unit other than `[`
and `O` yields `Keyboard(Alt(that character))`; in particular
`[0x1B, 'x']` decodes to `Keyboard(Alt('x'))`. -/
theorem esc_lookahead :
    decode [27] = [.Keyboard .Esc] ∧
      (∀ b rest, 32 ≤ b → b ≤ 126 → b ≠ 91 → b ≠ 79 →
        parseEvent (.ok 27 :: .ok b :: rest) =
          .ok (some (.Keyboard (.Alt (Char.ofNat b)), [27, b], rest))) ∧
      decode [27, 120] = [.Keyboard (.Alt 'x')] := by
  refine ⟨by decide, ?_, by decide⟩
  intro b rest _ _ h3 h4
  have hb91 : (b == 91) = false := by simp [h3]
  have hb79 : (b == 79) = false := by simp [h4]
  simp [parseEvent, parseEsc, hb91, hb79, Except.map]

/-- Witness for C4 at `b = 120` (the character 'x'). -/
theorem esc_lookahead_witness :
    parseEvent [.ok 27, .ok 120] =
      .ok (some (.Keyboard (.Alt (Char.ofNat 120)), [27, 120], [])) :=
  esc_lookahead.2.1 120 [] (by decide) (by decide) (by decide) (by decide)

/-- C5 counterexample: byte 10 lies in 1..=26 but decodes to
`Keyboard(Char('\n'))`, not to `Keyboard(Ctrl('j'))` as the claim states
for every byte in that range. -/
theorem ctrl_mapping_cex :
    1 ≤ 10 ∧ 10 ≤ 26 ∧ decode [10] = [.Keyboard (.Char (Char.ofNat 10))] ∧
      decode [10] ≠ [.Keyboard (.Ctrl (Char.ofNat (96 + 10)))] := by decide

/-- C5 amended: every control byte n in 1..=26 other than the carved-out
codes 8 (Backspace), 9 (tab), 10 and 13 (newline) decodes to
`Keyboard(Ctrl(letter))` with letter = 'a' + n - 1, and byte 0 decodes to
`Keyboard(Null)`. -/
theorem ctrl_mapping_amended :
    (∀ n, 1 ≤ n → n ≤ 26 → n ≠ 8 → n ≠ 9 → n ≠ 10 → n ≠ 13 →
      decode [n] = [.Keyboard (.Ctrl (Char.ofNat (96 + n)))]) ∧
      decode [0] = [.Keyboard .Null] := by
  refine ⟨?_, by decide⟩
  intro n h1 h2 h3 h4 h5 h6
  interval_cases n <;> first | omega | decide

/-- Witness for the amended C5 at `n = 3` (Ctrl-C). -/
theorem ctrl_mapping_amended_witness :
    decode [3] = [.Keyboard (.Ctrl (Char.ofNat (96 + 3)))] :=
  ctrl_mapping_amended.1 3 (by decide) (by decide) (by decide) (by decide) (by decide)
    (by decide)

/-- C6: a CSI mouse report decodes to a `MouseEvent` — the legacy X10 form
consumes three data bytes offset by 32; the low bits of the button value
select the button, low bits 3 mean a release carrying no button identity,
bit 0x20 means a drag (`Hold`); coordinates are the decoded column and row;
in particular the legacy left-press at column 5, row 3 decodes to
`Mouse(Press(Left, 5, 3))`, as does its SGR equivalent. -/
theorem mouse_decoding :
    (∀ cb cx cy rest,
        parseEvent (.ok 27 :: .ok 91 :: .ok 77 :: .ok cb :: .ok cx :: .ok cy :: rest) =
          .ok (some (.Mouse (x10Mouse (cb - 32) (cx - 32) (cy - 32)),
            [27, 91, 77, cb, cx, cy], rest))) ∧
      (∀ b x y, b % 4 = 3 → x10Mouse b x y = .Release (toU16 x) (toU16 y)) ∧
      (∀ b x y, b % 4 ≠ 3 → b / 32 % 2 = 1 → x10Mouse b x y = .Hold (toU16 x) (toU16 y)) ∧
      (∀ b x y btn, b % 4 ≠ 3 → b / 32 % 2 = 0 → x10Button b = some btn →
        x10Mouse b x y = .Press btn (toU16 x) (toU16 y)) ∧
      decode [27, 91, 77, 32, 37, 35] = [.Mouse (.Press .Left (toU16 5) (toU16 3))] ∧
      decode [27, 91, 60, 48, 59, 53, 59, 51, 77] =
        [.Mouse (.Press .Left (toU16 5) (toU16 3))] ∧
      decode [27, 91, 60, 48, 59, 53, 59, 51, 109] =
        [.Mouse (.Release (toU16 5) (toU16 3))] := by
  refine ⟨?_, ?_, ?_, ?_, by decide, by decide, by decide⟩
  · intro cb cx cy rest
    simp [parseEvent, parseEsc, parseCSI, parseX10, Except.map]
  · intro b x y h
    simp [x10Mouse, h]
  · intro b x y h1 h2
    have e1 : (b % 4 == 3) = false := by simp [h1]
    simp [x10Mouse, e1, h2]
  · intro b x y btn h1 h2 h3
    have e1 : (b % 4 == 3) = false := by simp [h1]
    have e2 : (b / 32 % 2 == 1) = false := by simp [h2]
    simp [x10Mouse, e1, e2, h3]

/-- Witness for C6: concrete release, drag and middle-press interpretations
of the legacy button value. -/
theorem mouse_decoding_witness :
    x10Mouse 3 1 2 = .Release (toU16 1) (toU16 2) ∧
      x10Mouse 32 1 2 = .Hold (toU16 1) (toU16 2) ∧
      x10Mouse 1 1 2 = .Press .Middle (toU16 1) (toU16 2) :=
  ⟨mouse_decoding.2.1 3 1 2 (by decide),
    mouse_decoding.2.2.1 32 1 2 (by decide) (by decide),
    mouse_decoding.2.2.2.1 1 1 2 .Middle (by decide) (by decide) (by decide)⟩

/-- C7: a CSI sequence whose terminator the fixed table does not recognize
decodes to `Unsupported(bytes)` where `bytes` is verbatim, in order, every
byte consumed for the sequence. -/
theorem unsupported_csi_verbatim (ps : List Nat) (f : Nat) (rest : ByteStream)
    (hps : ∀ b ∈ ps, isParamByte b = true) (hf : isParamByte f = false)
    (hM : ps = [] → f ≠ 77 ∧ f ≠ 60) (hkey : csiKey ps f = none) :
    parseEvent (.ok 27 :: .ok 91 :: (ps.map .ok ++ .ok f :: rest)) =
      .ok (some (.Unsupported (27 :: 91 :: (ps ++ [f])), 27 :: 91 :: (ps ++ [f]), rest)) := by
  have hcsi : parseCSI (ps.map .ok ++ .ok f :: rest) =
      .ok (.Unsupported (27 :: 91 :: (ps ++ [f])), 27 :: 91 :: (ps ++ [f]), rest) := by
    cases ps with
    | nil =>
      obtain ⟨h77, h60⟩ := hM rfl
      have c77 : (f == 77) = false := by simp [h77]
      have c60 : (f == 60) = false := by simp [h60]
      have hrp := readParams_app [] f rest (by simp) hf
      simp only [List.map_nil, List.nil_append] at hrp ⊢
      simp [parseCSI, c77, c60, hrp, hkey]
    | cons p ps' =>
      have hp : isParamByte p = true := hps p (List.mem_cons_self _ _)
      have hple := isParamByte_le p hp
      have c77 : (p == 77) = false := by
        simp only [beq_eq_false_iff_ne]
        omega
      have c60 : (p == 60) = false := by
        have h57 : (48 ≤ p ∧ p ≤ 57) ∨ p = 59 := by
          simpa [isParamByte] using hp
        simp only [beq_eq_false_iff_ne]
        omega
      have hrp : readParams (.ok p :: (ps'.map .ok ++ .ok f :: rest)) =
          .ok (p :: ps', some f, rest) := by
        simpa using readParams_app (p :: ps') f rest hps hf
      simp [parseCSI, c77, c60, hrp, hkey]
  simp [parseEvent, parseEsc, hcsi, Except.map]

/-- Witness for C7: the sequence `ESC [ 3 z` (final byte `z` unrecognized)
decodes to `Unsupported` carrying exactly those four bytes. -/
theorem unsupported_csi_verbatim_witness :
    parseEvent [.ok 27, .ok 91, .ok 51, .ok 122] =
      .ok (some (.Unsupported [27, 91, 51, 122], [27, 91, 51, 122], [])) := by
  have h := unsupported_csi_verbatim [51] 122 [] (by decide) (by decide)
    (by decide) (by decide)
  simpa using h

/-! ### The KeyEvent variant set (C2) -/

/-- One tag per constructor of the source `KeyEvent` enum, used to count
its variants. -/
inductive KeyEventCtor where
  | Backspace
  | Left
  | Right
  | Up
  | Down
  | Home
  | End
  | PageUp
  | PageDown
  | BackTab
  | Delete
  | Insert
  | F
  | Char
  | Alt
  | Ctrl
  | Null
  | Esc
  | CtrlUp
  | CtrlDown
  | CtrlRight
  | CtrlLeft
  | ShiftUp
  | ShiftDown
  | ShiftRight
  | ShiftLeft
  deriving DecidableEq, Repr, Fintype

/-- The constructor tag of a `KeyEvent`. -/
def KeyEvent.ctor : KeyEvent → KeyEventCtor
  | .Backspace => .Backspace
  | .Left => .Left
  | .Right => .Right
  | .Up => .Up
  | .Down => .Down
  | .Home => .Home
  | .End => .End
  | .PageUp => .PageUp
  | .PageDown => .PageDown
  | .BackTab => .BackTab
  | .Delete => .Delete
  | .Insert => .Insert
  | .F _ => .F
  | .Char _ => .Char
  | .Alt _ => .Alt
  | .Ctrl _ => .Ctrl
  | .Null => .Null
  | .Esc => .Esc
  | .CtrlUp => .CtrlUp
  | .CtrlDown => .CtrlDown
  | .CtrlRight => .CtrlRight
  | .CtrlLeft => .CtrlLeft
  | .ShiftUp => .ShiftUp
  | .ShiftDown => .ShiftDown
  | .ShiftRight => .ShiftRight
  | .ShiftLeft => .ShiftLeft

/-- All `KeyEvent` constructor tags, in source order. -/
def keyEventCtors : List KeyEventCtor :=
  [.Backspace, .Left, .Right, .Up, .Down, .Home, .End, .PageUp, .PageDown,
    .BackTab, .Delete, .Insert, .F, .Char, .Alt, .Ctrl, .Null, .Esc,
    .CtrlUp, .CtrlDown, .CtrlRight, .CtrlLeft, .ShiftUp, .ShiftDown,
    .ShiftRight, .ShiftLeft]

/-- C2 counterexample: the complete, duplicate-free list of `KeyEvent`
constructors has length 26, so the type does not have exactly 27 variants
as the claim states. -/
theorem keyEvent_not_27_variants :
    keyEventCtors.Nodup ∧ (∀ c : KeyEventCtor, c ∈ keyEventCtors) ∧
      keyEventCtors.length = 26 ∧ keyEventCtors.length ≠ 27 := by decide

/-- C2 amended: `KeyEvent` is a closed set of exactly 26 variants — the
navigation keys, `F(n)`, `Char(c)`, `Alt(c)`, `Ctrl(c)`, the
modifier-qualified arrows and `Null` — every key event bearing one of the
26 listed constructor tags and every tag being realized. -/
theorem keyEvent_closed_26_variants :
    keyEventCtors.Nodup ∧ (∀ c : KeyEventCtor, c ∈ keyEventCtors) ∧
      keyEventCtors.length = 26 ∧ Function.Surjective KeyEvent.ctor := by
  refine ⟨by decide, by decide, rfl, ?_⟩
  intro c
  cases c
  exacts [⟨.Backspace, rfl⟩, ⟨.Left, rfl⟩, ⟨.Right, rfl⟩, ⟨.Up, rfl⟩, ⟨.Down, rfl⟩,
    ⟨.Home, rfl⟩, ⟨.End, rfl⟩, ⟨.PageUp, rfl⟩, ⟨.PageDown, rfl⟩, ⟨.BackTab, rfl⟩,
    ⟨.Delete, rfl⟩, ⟨.Insert, rfl⟩, ⟨.F (toU8 1), rfl⟩, ⟨.Char (Char.ofNat 97), rfl⟩,
    ⟨.Alt (Char.ofNat 97), rfl⟩, ⟨.Ctrl (Char.ofNat 97), rfl⟩, ⟨.Null, rfl⟩, ⟨.Esc, rfl⟩,
    ⟨.CtrlUp, rfl⟩, ⟨.CtrlDown, rfl⟩, ⟨.CtrlRight, rfl⟩, ⟨.CtrlLeft, rfl⟩,
    ⟨.ShiftUp, rfl⟩, ⟨.ShiftDown, rfl⟩, ⟨.ShiftRight, rfl⟩, ⟨.ShiftLeft, rfl⟩]

/-! ### The delivery channel (C8) -/

/-- Modelled from the spec (section 4.4/5: the single-producer
single-consumer delivery channel of the missing `AsyncReader`): the channel
records the events sent so far, in order, and how many of them have been
delivered to the consumer. -/
structure Channel where
  sent : List InputEvent
  delivered : Nat
  deriving DecidableEq, Repr

/-- An action on the channel: the worker sends a decoded event, or the
consumer pulls one. -/
inductive ChanOp where
  | send (e : InputEvent)
  | recv
  deriving DecidableEq, Repr

/-- Modelled from the spec ("delivery through the channel preserves arrival
order strictly (FIFO, single producer/single consumer)"): one step of the
channel, also tracking the list of events the consumer has observed; a pull
on an empty queue blocks, which this interleaving model renders as a
no-op. -/
def chanStep : Channel × List InputEvent → ChanOp → Channel × List InputEvent
  | (c, out), .send e => ({ c with sent := c.sent ++ [e] }, out)
  | (c, out), .recv =>
    match (c.sent.drop c.delivered).head? with
    | some e => ({ c with delivered := c.delivered + 1 }, out ++ [e])
    | none => (c, out)

/-- Run a schedule of channel operations from the empty channel, returning
the final channel and the consumer-observed event list. -/
def chanRun (ops : List ChanOp) : Channel × List InputEvent :=
  ops.foldl chanStep (⟨[], 0⟩, [])

/-- The events a schedule sends, in order of production. -/
def sendsOf (ops : List ChanOp) : List InputEvent :=
  ops.filterMap fun op => match op with | .send e => some e | .recv => none

theorem chanFold_inv (ops : List ChanOp) :
    ∀ (c : Channel) (out : List InputEvent),
      out = c.sent.take c.delivered → c.delivered ≤ c.sent.length →
      (ops.foldl chanStep (c, out)).1.sent = c.sent ++ sendsOf ops ∧
        (ops.foldl chanStep (c, out)).2 =
          (ops.foldl chanStep (c, out)).1.sent.take (ops.foldl chanStep (c, out)).1.delivered ∧
        (ops.foldl chanStep (c, out)).1.delivered ≤ (ops.foldl chanStep (c, out)).1.sent.length := by
  induction ops with
  | nil =>
    intro c out h1 h2
    exact ⟨by simp [sendsOf], h1, h2⟩
  | cons op ops ih =>
    intro c out h1 h2
    cases op with
    | send e =>
      have h1a : out = (c.sent ++ [e]).take c.delivered := by
        rw [List.take_append_of_le_length h2]
        exact h1
      have h2a : c.delivered ≤ (c.sent ++ [e]).length := by
        simp
        omega
      have step : chanStep (c, out) (.send e) = ({ c with sent := c.sent ++ [e] }, out) := rfl
      rw [List.foldl_cons, step]
      obtain ⟨g1, g2, g3⟩ := ih { c with sent := c.sent ++ [e] } out h1a h2a
      refine ⟨?_, g2, g3⟩
      rw [g1]
      simp [sendsOf]
    | recv =>
      cases hd : (c.sent.drop c.delivered).head? with
      | none =>
        have step : chanStep (c, out) .recv = (c, out) := by
          simp [chanStep, hd]
        rw [List.foldl_cons, step]
        obtain ⟨g1, g2, g3⟩ := ih c out h1 h2
        refine ⟨?_, g2, g3⟩
        rw [g1]
        simp [sendsOf]
      | some e =>
        have hget : c.sent[c.delivered]? = some e := by
          rw [← List.head?_drop]
          exact hd
        have hlt : c.delivered < c.sent.length := by
          by_contra hge
          rw [List.drop_eq_nil_of_le (by omega)] at hd
          simp at hd
        have h1a : out ++ [e] = c.sent.take (c.delivered + 1) := by
          rw [List.take_succ, ← h1, hget]
          rfl
        have step : chanStep (c, out) .recv =
            ({ c with delivered := c.delivered + 1 }, out ++ [e]) := by
          simp [chanStep, hd]
        rw [List.foldl_cons, step]
        obtain ⟨g1, g2, g3⟩ := ih { c with delivered := c.delivered + 1 } (out ++ [e]) h1a hlt
        refine ⟨?_, g2, g3⟩
        rw [g1]
        simp [sendsOf]

/-- C8: event delivery preserves order — over any schedule of sends and
pulls, the events the channel has accepted are exactly the events produced,
in production order, and the consumer-observed sequence is exactly the
first `delivered` of them: no reordering, no duplication, no loss while the
channel is open. -/
theorem channel_fifo_order (ops : List ChanOp) :
    (chanRun ops).1.sent = sendsOf ops ∧
      (chanRun ops).2 = (sendsOf ops).take (chanRun ops).1.delivered ∧
      (chanRun ops).1.delivered ≤ (sendsOf ops).length := by
  obtain ⟨g1, g2, g3⟩ := chanFold_inv ops ⟨[], 0⟩ [] rfl (by simp)
  have e1 : (chanRun ops).1.sent = sendsOf ops := by simpa [chanRun] using g1
  refine ⟨e1, ?_, ?_⟩
  · have := g2
    rw [show ops.foldl chanStep (⟨[], 0⟩, []) = chanRun ops from rfl, e1] at this
    exact this
  · have := g3
    rw [show ops.foldl chanStep (⟨[], 0⟩, []) = chanRun ops from rfl, e1] at this
    exact this

/-! ### The mouse-mode controller (C9) -/

/-- Modelled from the spec (section 4.2, the missing MouseModeController
implementations behind `ITerminalInput::enable_mouse_mode` /
`disable_mouse_mode`): the device state is whether mouse reporting is on
and whether the write primitive still succeeds. -/
structure TermDevice where
  mouseMode : Bool
  alive : Bool
  deriving DecidableEq, Repr

/-- Modelled from the spec: `enable_mouse_mode()` writes the protocol
command that switches the device into mouse-report-generating mode,
failing with an I/O error exactly when the write primitive fails. -/
def enable_mouse_mode (d : TermDevice) : Except Unit TermDevice :=
  if d.alive then .ok { d with mouseMode := true } else .error ()

/-- Modelled from the spec: `disable_mouse_mode()` writes the inverse
command, failing with an I/O error exactly when the write primitive
fails. -/
def disable_mouse_mode (d : TermDevice) : Except Unit TermDevice :=
  if d.alive then .ok { d with mouseMode := false } else .error ()

/-- C9: both mode operations are idempotent at the protocol level —
issuing one twice leaves the state of a single issue, issuing one while
the device is already in that state succeeds and changes nothing — and
each fails with an I/O error exactly when the write primitive fails. -/
theorem mouse_mode_idempotent (d : TermDevice) :
    (enable_mouse_mode d).bind enable_mouse_mode = enable_mouse_mode d ∧
      (disable_mouse_mode d).bind disable_mouse_mode = disable_mouse_mode d ∧
      (d.alive = true → d.mouseMode = true → enable_mouse_mode d = .ok d) ∧
      (d.alive = true → d.mouseMode = false → disable_mouse_mode d = .ok d) ∧
      (enable_mouse_mode d = .error () ↔ d.alive = false) ∧
      (disable_mouse_mode d = .error () ↔ d.alive = false) := by
  obtain ⟨m, a⟩ := d
  cases a <;> cases m <;>
    simp [enable_mouse_mode, disable_mouse_mode, Except.bind]

/-- Witness for C9 on a live device already in mouse mode. -/
theorem mouse_mode_idempotent_witness :
    enable_mouse_mode ⟨true, true⟩ = .ok ⟨true, true⟩ ∧
      (enable_mouse_mode ⟨true, true⟩).bind enable_mouse_mode =
        enable_mouse_mode ⟨true, true⟩ := by
  obtain ⟨h1, _, h3, _⟩ := mouse_mode_idempotent ⟨true, true⟩
  exact ⟨h3 rfl rfl, h1⟩

/-! ### Mouse coordinates (C10) -/

/-- The coordinates carried by a mouse event, when it has any. -/
def MouseEvent.coords : MouseEvent → Option (Nat × Nat)
  | .Press _ x y => some (x.val, y.val)
  | .Release x y => some (x.val, y.val)
  | .Hold x y => some (x.val, y.val)
  | .Unknown => none

/-- C10: every mouse event's coordinates are 16-bit unsigned integers —
whenever a `Press`, `Release` or `Hold` carries coordinates `(x, y)`, both
lie in 0..=65535 — and the interface admits the coordinate value 0 even
though the documented mouse-report convention is 1-based. -/
theorem mouse_coords_u16 :
    (∀ (m : MouseEvent) (x y : Nat), m.coords = some (x, y) → x ≤ 65535 ∧ y ≤ 65535) ∧
      (MouseEvent.Press .Left (toU16 0) (toU16 0)).coords = some (0, 0) := by
  refine ⟨?_, rfl⟩
  rintro m x y h
  cases m with
  | Press b a c =>
    obtain ⟨hx, hy⟩ := by simpa [MouseEvent.coords] using h
    have := a.isLt
    have := c.isLt
    omega
  | Release a c =>
    obtain ⟨hx, hy⟩ := by simpa [MouseEvent.coords] using h
    have := a.isLt
    have := c.isLt
    omega
  | Hold a c =>
    obtain ⟨hx, hy⟩ := by simpa [MouseEvent.coords] using h
    have := a.isLt
    have := c.isLt
    omega
  | Unknown => simp [MouseEvent.coords] at h

/-- Witness for C10 at a concrete `Release` event. -/
theorem mouse_coords_u16_witness :
    7 ≤ 65535 ∧ 9 ≤ 65535 :=
  mouse_coords_u16.1 (.Release (toU16 7) (toU16 9)) 7 9 (by decide)
